import Mathlib

/-!
Verification of the NFL fantasy analytics pipeline
(`1.nfl-fantasy-data-collection-analysis.py`).

The pipeline is a pandas script: scrape per-season category tables, outer-join
passing/rushing/receiving on (Player, Tm), zero-fill, compute FantasyPoints,
concatenate seasons, standardize numeric columns, and analyze.

Tables are embedded as lists of association-list rows (column name to cell);
cells are strings, rationals (machine floats modelled as exact rationals), or
`na` (pandas NaN / missing).  Fallible steps return `Option`.
-/

namespace NFLFantasy

/-- A cell of a pandas DataFrame: a string, a numeric value, or NaN. -/
inductive Cell : Type where
  | s (v : String)
  | n (v : ℚ)
  | na
deriving DecidableEq

/-- A DataFrame row: association list from column name to cell. -/
abbrev Row : Type := List (String × Cell)

/-- A DataFrame: a column list and rows. -/
structure Table : Type where
  cols : List String
  rows : List Row
deriving DecidableEq

/-- Look a column up in a row (first matching entry, like a DataFrame cell). -/
def lookupCell (c : String) (r : Row) : Option Cell :=
  (List.find? (fun cv => cv.1 == c) r).map (fun cv => cv.2)

/-- The column names bound by a row. -/
def rowCols (r : Row) : List String := r.map (fun cv => cv.1)

/-- The join keys of the merges: `on=['Player', 'Tm']`. -/
def isKey (c : String) : Bool := c == "Player" || c == "Tm"

/-- The (Player, Tm) key of a row. -/
def keyOf (r : Row) : Option Cell × Option Cell :=
  (lookupCell "Player" r, lookupCell "Tm" r)

/-- A key `k` is present in table `t` when some row of `t` carries it. -/
def present (k : Option Cell × Option Cell) (t : Table) : Prop :=
  ∃ row ∈ t.rows, keyOf row = k

instance (k : Option Cell × Option Cell) (t : Table) : Decidable (present k t) :=
  inferInstanceAs (Decidable (∃ row ∈ t.rows, keyOf row = k))

/-- Non-key columns shared by both inputs; `pd.merge` suffixes exactly these. -/
def overlapCols (l r : Table) : List String :=
  l.cols.filter (fun c => !isKey c && r.cols.contains c)

/-- Rename a column: append the suffix when the name is a shared non-key name. -/
def sufCol (ov : List String) (suf : String) (c : String) : String :=
  if ov.contains c then c ++ suf else c

/-- Rename the columns of one row. -/
def renRow (ov : List String) (suf : String) (r : Row) : Row :=
  r.map (fun cv => (sufCol ov suf cv.1, cv.2))

/-- Rename the columns of a table. -/
def renTable (ov : List String) (suf : String) (t : Table) : Table :=
  ⟨t.cols.map (sufCol ov suf), t.rows.map (renRow ov suf)⟩

/-- The non-key cells of a row. -/
def nonKeyCells (r : Row) : Row := r.filter (fun cv => !isKey cv.1)

/-- The key cells of a row. -/
def keyCells (r : Row) : Row := r.filter (fun cv => isKey cv.1)

/-- NaN padding for the non-key columns of the absent side of an outer join. -/
def naPad (cols : List String) : Row :=
  (cols.filter (fun c => !isKey c)).map (fun c => (c, Cell.na))

/-- Embedding of `pd.merge(l, r, on=['Player','Tm'], how='outer',
suffixes=(sl, sr))`: shared non-key columns are renamed with the suffixes on
their respective sides, every left row is combined with each key-matching
right row (NaN-padded when none matches), and unmatched right rows are
appended with the left columns NaN-padded. -/
def mergeOuter (l r : Table) (sl sr : String) : Table :=
  let ov := overlapCols l r
  let lt := renTable ov sl l
  let rt := renTable ov sr r
  ⟨lt.cols ++ rt.cols.filter (fun c => !isKey c),
    (lt.rows.flatMap (fun lr =>
      let ms := rt.rows.filter (fun rr => decide (keyOf rr = keyOf lr))
      if ms.isEmpty then [lr ++ naPad rt.cols]
      else ms.map (fun rr => lr ++ nonKeyCells rr)))
    ++ ((rt.rows.filter
          (fun rr => !(lt.rows.any (fun lr => decide (keyOf lr = keyOf rr))))).map
          (fun rr => keyCells rr ++ naPad lt.cols ++ nonKeyCells rr))⟩

/-- Replace NaN by numeric zero in one cell (`fillna(0)`). -/
def fillCell (c : Cell) : Cell := if c = Cell.na then Cell.n 0 else c

/-- Replace NaN by numeric zero in one row. -/
def fillRow (r : Row) : Row := r.map (fun cv => (cv.1, fillCell cv.2))

/-- Embedding of `players.fillna(0)`. -/
def fillna0 (t : Table) : Table := ⟨t.cols, t.rows.map fillRow⟩

/-- Lines 74-78: merge passing with rushing with suffixes `('_pass','_rush')`,
merge the result with receiving using pandas' default suffixes `('_x','_y')`,
then fill NaN with 0. -/
def mergedSeason (passing rushing receiving : Table) : Table :=
  fillna0 (mergeOuter (mergeOuter passing rushing "_pass" "_rush") receiving "_x" "_y")

/-- Read a cell as a number. -/
def getNum (c : String) (r : Row) : Option ℚ :=
  match lookupCell c r with
  | some (Cell.n v) => some v
  | _ => none

/-- Lines 81-90: the FantasyPoints value of one merged row.  Fails (like the
Python arithmetic would) when a referenced stat cell is not numeric. -/
def fantasyRow (r : Row) : Option ℚ := do
  let yp ← getNum "Yds_pass" r
  let tp ← getNum "TD_pass" r
  let ic ← getNum "Int" r
  let yr ← getNum "Yds_rush" r
  let tr ← getNum "TD_rush" r
  let rc ← getNum "Rec" r
  let yd ← getNum "Yds" r
  let td ← getNum "TD" r
  pure (yp * 0.04 + tp * 4 + ic * (-2) + yr * 0.1 + tr * 6 + rc * 1 + yd * 0.1 + td * 6)

/-- Append the FantasyPoints column to every row. -/
def addFantasyPoints (t : Table) : Option Table :=
  (t.rows.mapM (fun r =>
    (fantasyRow r).map (fun v => r ++ [("FantasyPoints", Cell.n v)]))).map
    (fun rs => Table.mk (t.cols ++ ["FantasyPoints"]) rs)

/-- Arithmetic mean of a column (0 for the empty column, by `0/0 = 0`). -/
def mean (xs : List ℚ) : ℚ := xs.sum / (xs.length : ℚ)

/-- Population variance of a column (ddof 0, as `StandardScaler` uses). -/
def variance (xs : List ℚ) : ℚ :=
  ((xs.map (fun x => (x - mean xs) ^ 2)).sum) / (xs.length : ℚ)

/-- The per-column scale of `StandardScaler`: the standard deviation, except
that a zero variance yields scale 1 (sklearn `_handle_zeros_in_scale`).  The
parameter `s` stands for the real square root of the variance, which is not a
rational in general; theorems constrain it by `s ^ 2 = variance xs`. -/
def scaleOf (xs : List ℚ) (s : ℚ) : ℚ :=
  if variance xs = 0 then 1 else s

/-- Lines 94-98 (`scale_features` / `StandardScaler.fit_transform`) on one
numeric column: rewrite each value as (value - mean) / scale. -/
def standardize (xs : List ℚ) (s : ℚ) : List ℚ :=
  xs.map (fun x => (x - mean xs) / scaleOf xs s)

/-- Line 42/101: the module-level year constant. -/
def current_year : ℕ := 2023

/-- Python `range(a, b)`. -/
def yearsRange (a b : ℕ) : List ℕ := List.range' a (b - a)

/-- Line 104: `range(current_year - 4, current_year + 1)`. -/
def seasonYears : List ℕ := yearsRange (current_year - 4) (current_year + 1)

/-- Line 106: stamp a Year column onto every row of a season's record. -/
def stampYear (y : ℕ) (t : Table) : Table :=
  ⟨t.cols ++ ["Year"], t.rows.map (fun r => r ++ [("Year", Cell.n y)])⟩

/-- Line 110: `pd.concat(all_players, ignore_index=True)` — a row-wise union. -/
def concatTables (ts : List Table) : Table :=
  ⟨(ts.flatMap (fun t => t.cols)).dedup, ts.flatMap (fun t => t.rows)⟩

/-- Lines 102-110: per-season records, year-stamped, concatenated.  `load`
abstracts `load_and_preprocess_data`, the per-season merged record. -/
def allPlayersDf (load : ℕ → Table) : Table :=
  concatTables (seasonYears.map (fun y => stampYear y (load y)))

/-- Line 152 groupby: per distinct player, the mean of FantasyPoints. -/
def groupMeanFP (rows : List (String × ℚ)) : List (String × ℚ) :=
  ((rows.map Prod.fst).dedup).map
    (fun p => (p, mean ((rows.filter (fun x => x.1 == p)).map Prod.snd)))

/-- Descending order on mean FantasyPoints (`sort_values(ascending=False)`). -/
def fpDesc (a b : String × ℚ) : Prop := b.2 ≤ a.2

instance : DecidableRel fpDesc := fun a b => inferInstanceAs (Decidable (b.2 ≤ a.2))

instance : IsTotal (String × ℚ) fpDesc := ⟨fun a b => le_total b.2 a.2⟩

instance : IsTrans (String × ℚ) fpDesc := ⟨fun _ _ _ h h2 => le_trans h2 h⟩

/-- Line 152: groupby mean, sort descending, head(20). -/
def topPlayers (rows : List (String × ℚ)) : List (String × ℚ) :=
  (List.insertionSort fpDesc (groupMeanFP rows)).take 20

/-- Line 36: `df[df['Player'] != 'Player']` — drop repeated header rows.  A
NaN or missing Player cell compares unequal to the string, hence is kept. -/
def dropHeaderRows (t : Table) : Table :=
  ⟨t.cols, t.rows.filter (fun r => !(lookupCell "Player" r == some (Cell.s "Player")))⟩

/-- Line 37: `df.dropna(how='all')` — drop rows whose cells are all NaN. -/
def dropAllNaRows (t : Table) : Table :=
  ⟨t.cols, t.rows.filter (fun r => !(r.all (fun cv => cv.2 == Cell.na)))⟩

/-- Lines 36-37 of `scrape_table`: header-row filter then all-NaN row filter. -/
def scrapeClean (t : Table) : Table := dropAllNaRows (dropHeaderRows t)

/-- Tokenizer of Python `str.split()` (no argument): maximal runs of
non-whitespace characters, empty tokens discarded.  `acc` carries the current
token's characters in reverse. -/
def pyTokensAux : List Char → List Char → List String
  | [], acc => if acc.isEmpty then [] else [String.mk acc.reverse]
  | c :: rest, acc =>
    if c.isWhitespace then
      if acc.isEmpty then pyTokensAux rest []
      else String.mk acc.reverse :: pyTokensAux rest []
    else pyTokensAux rest (c :: acc)

/-- Python `str.split()` with no separator argument. -/
def pySplit (s : String) : List String := pyTokensAux s.data []

/-- Line 163: Python `x.split()[-1]` — last whitespace-delimited token, `none`
when the token list is empty (Python raises IndexError there). -/
def positionOf (name : String) : Option String := (pySplit name).getLast?

/-- Line 163 per row: append the Position column extracted from Player. -/
def addPositionRow (r : Row) : Option Row :=
  match lookupCell "Player" r with
  | some (Cell.s nm) => (positionOf nm).map (fun p => r ++ [("Position", Cell.s p)])
  | _ => none

/-- Line 163: `df['Position'] = df['Player'].apply(lambda x: x.split()[-1])` —
the one Analyzer operation that rewrites the in-memory dataset. -/
def addPosition (t : Table) : Option Table :=
  (t.rows.mapM addPositionRow).map (fun rs => Table.mk (t.cols ++ ["Position"]) rs)

/-- The output column name carrying passing column `c` after both joins. -/
def finalColP (p r v : Table) (c : String) : String :=
  sufCol (overlapCols (mergeOuter p r "_pass" "_rush") v) "_x"
    (sufCol (overlapCols p r) "_pass" c)

/-- The output column name carrying rushing column `c` after both joins. -/
def finalColR (p r v : Table) (c : String) : String :=
  sufCol (overlapCols (mergeOuter p r "_pass" "_rush") v) "_x"
    (sufCol (overlapCols p r) "_rush" c)

/-- The output column name carrying receiving column `c` after the second join. -/
def finalColV (p r v : Table) (c : String) : String :=
  sufCol (overlapCols (mergeOuter p r "_pass" "_rush") v) "_y" c

/-- A merged row holding the worked example of the spec (section 8). -/
def exampleRow : Row :=
  [("Yds_pass", Cell.n 300), ("TD_pass", Cell.n 2), ("Int", Cell.n 1),
   ("Yds_rush", Cell.n 20), ("TD_rush", Cell.n 0), ("Rec", Cell.n 5),
   ("Yds", Cell.n 50), ("TD", Cell.n 1)]

/-- A tiny passing table: one player with a Yds column. -/
def passingEx : Table :=
  ⟨["Player", "Tm", "Yds"],
   [[("Player", Cell.s "A"), ("Tm", Cell.s "KC"), ("Yds", Cell.n 100)]]⟩

/-- A tiny rushing table sharing the Yds column name with passing and the Fmb
column name with receiving. -/
def rushingEx : Table :=
  ⟨["Player", "Tm", "Yds", "Fmb"],
   [[("Player", Cell.s "A"), ("Tm", Cell.s "KC"), ("Yds", Cell.n 30), ("Fmb", Cell.n 2)]]⟩

/-- A tiny receiving table: player A plus a player B absent from the others. -/
def receivingEx : Table :=
  ⟨["Player", "Tm", "Fmb"],
   [[("Player", Cell.s "A"), ("Tm", Cell.s "KC"), ("Fmb", Cell.n 5)],
    [("Player", Cell.s "B"), ("Tm", Cell.s "NE"), ("Fmb", Cell.n 7)]]⟩

/-- A scraped table holding a repeated header row, an all-NaN row and a
genuine data row. -/
def scrapedEx : Table :=
  ⟨["Player", "Tm"],
   [[("Player", Cell.s "Player"), ("Tm", Cell.s "Tm")],
    [("Player", Cell.na), ("Tm", Cell.na)],
    [("Player", Cell.s "A. Rodgers"), ("Tm", Cell.s "GB")]]⟩

/-- The surviving data row of `scrapedEx`. -/
def goodRow : Row := [("Player", Cell.s "A. Rodgers"), ("Tm", Cell.s "GB")]

/-- A one-row normalized dataset as the Analyzer reads it. -/
def analyzedEx : Table :=
  ⟨["Player", "FantasyPoints"],
   [[("Player", Cell.s "Patrick Mahomes QB"), ("FantasyPoints", Cell.n 1)]]⟩

/-- Twenty-five rows with distinct player identifiers. -/
def rows25 : List (String × ℚ) :=
  (List.range 25).map (fun i => (toString i, (i : ℚ)))

end NFLFantasy

namespace NFLFantasy

/-- C1: for every merged player row whose eight referenced stat cells are
numeric, the FantasyPoints value computed on lines 81-90 equals the fixed
linear combination 0.04·PassYards + 4·PassTD − 2·Interceptions + 0.1·RushYards
+ 6·RushTD + 1·Receptions + 0.1·RecYards + 6·RecTD of those cells. -/
theorem c1_fantasy_points_formula (r : Row) (yp tp ic yr tr rc yd td : ℚ)
    (h1 : getNum "Yds_pass" r = some yp) (h2 : getNum "TD_pass" r = some tp)
    (h3 : getNum "Int" r = some ic) (h4 : getNum "Yds_rush" r = some yr)
    (h5 : getNum "TD_rush" r = some tr) (h6 : getNum "Rec" r = some rc)
    (h7 : getNum "Yds" r = some yd) (h8 : getNum "TD" r = some td) :
    fantasyRow r =
      some (0.04 * yp + 4 * tp - 2 * ic + 0.1 * yr + 6 * tr + 1 * rc + 0.1 * yd + 6 * td) := by
  unfold fantasyRow
  rw [h1, h2, h3, h4, h5, h6, h7, h8]
  simp only [Option.bind_eq_bind, Option.some_bind, Option.pure_def]
  congr 1
  ring

/-- C1 witness: on the spec's worked example (PassYards 300, PassTD 2, Int 1,
RushYards 20, RushTD 0, Rec 5, RecYards 50, RecTD 1) the computed
FantasyPoints is 36. -/
theorem c1_fantasy_points_formula_witness : fantasyRow exampleRow = some 36 := by
  rw [c1_fantasy_points_formula exampleRow 300 2 1 20 0 5 50 1
    rfl rfl rfl rfl rfl rfl rfl rfl]
  norm_num

/-- C6: the row count of the concatenated multi-season dataset equals the sum
over the configured year range of the per-season row counts. -/
theorem c6_concat_row_count (load : ℕ → Table) :
    (allPlayersDf load).rows.length =
      (seasonYears.map (fun y => (load y).rows.length)).sum := by
  unfold allPlayersDf concatTables
  suffices h : ∀ ys : List ℕ,
      ((ys.map (fun y => stampYear y (load y))).flatMap (fun t => t.rows)).length =
        (ys.map (fun y => (load y).rows.length)).sum from h seasonYears
  intro ys
  induction ys with
  | nil => simp
  | cons y ys ih =>
    simp only [List.map_cons, List.flatMap_cons, List.length_append, List.sum_cons]
    rw [ih]
    simp [stampYear]

/-- C8: no row of the Collector's cleaned output has the literal header string
"Player" in its player column, and no retained row is entirely NaN. -/
theorem c8_scrape_filters (t : Table) (r : Row) (hr : r ∈ (scrapeClean t).rows) :
    lookupCell "Player" r ≠ some (Cell.s "Player") ∧ ¬(∀ cv ∈ r, cv.2 = Cell.na) := by
  unfold scrapeClean dropAllNaRows dropHeaderRows at hr
  simp only [List.mem_filter, Bool.not_eq_true', beq_eq_false_iff_ne, ne_eq,
    List.all_eq_true, Bool.not_eq_true] at hr
  refine ⟨hr.1.2, fun hall => ?_⟩
  have h2 := hr.2
  have hta : List.all r (fun cv => cv.2 == Cell.na) = true := by
    rw [List.all_eq_true]
    intro cv hcv
    exact beq_iff_eq.mpr (hall cv hcv)
  rw [hta] at h2
  cases h2

/-- C8 witness: on a scraped table with a header row, an all-NaN row and a
data row, the data row survives and satisfies both filter properties. -/
theorem c8_scrape_filters_witness :
    goodRow ∈ (scrapeClean scrapedEx).rows ∧
      (lookupCell "Player" goodRow ≠ some (Cell.s "Player") ∧
        ¬(∀ cv ∈ goodRow, cv.2 = Cell.na)) :=
  ⟨by decide, c8_scrape_filters scrapedEx goodRow (by decide)⟩

/-- Distributing a subtraction and a constant factor over a column sum. -/
theorem sum_map_sub_mul (xs : List ℚ) (a b : ℚ) :
    (xs.map (fun x => (x - a) * b)).sum = (xs.sum - (xs.length : ℚ) * a) * b := by
  induction xs with
  | nil => simp
  | cons x xs ih =>
    simp only [List.map_cons, List.sum_cons, List.length_cons, ih]
    push_cast
    ring

/-- A list of nonnegative rationals with zero sum is all zeros. -/
theorem all_zero_of_sum_nonneg_zero (l : List ℚ) (h0 : ∀ x ∈ l, 0 ≤ x)
    (hs : l.sum = 0) : ∀ x ∈ l, x = 0 := by
  induction l with
  | nil => simp
  | cons a l ih =>
    have ha : 0 ≤ a := h0 a (List.mem_cons_self a l)
    have hl : ∀ x ∈ l, 0 ≤ x := fun x hx => h0 x (List.mem_cons_of_mem a hx)
    have hsl : 0 ≤ l.sum := List.sum_nonneg hl
    have hsum : a + l.sum = 0 := by simpa using hs
    have ha0 : a = 0 := by linarith
    have hl0 : l.sum = 0 := by linarith
    intro x hx
    rcases List.mem_cons.mp hx with rfl | hx
    · exact ha0
    · exact ih hl hl0 x hx

/-- C4: standardizing a numeric column of nonzero variance jointly over all
rows yields a column of mean exactly 0 and variance exactly 1 (hence within
the 1e-9 tolerance); `s` is the standard deviation, the nonnegative root of
the variance. -/
theorem c4_standardize_mean_zero_var_one (xs : List ℚ) (s : ℚ)
    (hv : variance xs ≠ 0) (hs : s ^ 2 = variance xs) :
    mean (standardize xs s) = 0 ∧ variance (standardize xs s) = 1 := by
  have hxs : xs ≠ [] := by
    rintro rfl
    simp [variance] at hv
  have hn : (xs.length : ℚ) ≠ 0 :=
    Nat.cast_ne_zero.mpr (List.length_pos.mpr hxs).ne'
  have hs0 : s ≠ 0 := fun h => hv (by rw [← hs, h]; ring)
  have hscale : scaleOf xs s = s := if_neg hv
  have hsub : xs.sum - (xs.length : ℚ) * mean xs = 0 := by
    unfold mean
    field_simp
  have hsum : (standardize xs s).sum = 0 := by
    unfold standardize
    simp only [hscale, div_eq_mul_inv]
    rw [sum_map_sub_mul, hsub, zero_mul]
  have hmean : mean (standardize xs s) = 0 := by
    unfold mean
    rw [hsum, zero_div]
  refine ⟨hmean, ?_⟩
  unfold variance
  rw [hmean]
  simp only [sub_zero]
  unfold standardize
  simp only [hscale, div_eq_mul_inv, List.map_map, List.length_map, Function.comp_def]
  have hpow : (fun x => ((x - mean xs) * s⁻¹) ^ 2) =
      fun x => (x - mean xs) ^ 2 * (s⁻¹ * s⁻¹) := by
    funext x
    ring
  have hS : (xs.map (fun x => (x - mean xs) ^ 2)).sum = variance xs * (xs.length : ℚ) := by
    unfold variance
    field_simp
  rw [hpow, List.sum_map_mul_right, hS, ← hs]
  field_simp
  exact Or.inl (sq s)

/-- C4 witness: the column [0, 2] has mean 1, variance 1, standard deviation
1; its standardized form has mean 0 and variance 1. -/
theorem c4_standardize_mean_zero_var_one_witness :
    variance [(0 : ℚ), 2] ≠ 0 ∧ (1 : ℚ) ^ 2 = variance [(0 : ℚ), 2] ∧
      (mean (standardize [(0 : ℚ), 2] 1) = 0 ∧ variance (standardize [(0 : ℚ), 2] 1) = 1) :=
  ⟨by norm_num [variance, mean], by norm_num [variance, mean],
    c4_standardize_mean_zero_var_one [(0 : ℚ), 2] 1 (by norm_num [variance, mean])
      (by norm_num [variance, mean])⟩

/-- C5 counterexample: on the constant (zero-variance) column [5, 5, 5] the
normalization step does not divide by zero: `StandardScaler` replaces the
zero scale with 1 (`_handle_zeros_in_scale`), and the column standardizes to
all zeros. -/
theorem c5_counterexample_zero_variance_scale_one :
    variance [(5 : ℚ), 5, 5] = 0 ∧ scaleOf [(5 : ℚ), 5, 5] 0 = 1 ∧
      standardize [(5 : ℚ), 5, 5] 0 = [0, 0, 0] := by
  refine ⟨by norm_num [variance, mean], ?_, ?_⟩
  · rw [scaleOf, if_pos (by norm_num [variance, mean])]
  · unfold standardize
    rw [scaleOf, if_pos (by norm_num [variance, mean])]
    norm_num [mean]

/-- C5 amended: for every zero-variance column the scale used by the source's
normalization is 1, not 0 — sklearn's explicit zero-variance policy — and the
standardized column is identically zero; no division by zero occurs. -/
theorem c5_zero_variance_policy (xs : List ℚ) (s : ℚ) (h : variance xs = 0) :
    scaleOf xs s = 1 ∧ ∀ y ∈ standardize xs s, y = 0 := by
  have hscale : scaleOf xs s = 1 := if_pos h
  refine ⟨hscale, ?_⟩
  intro y hy
  unfold standardize at hy
  rw [List.mem_map] at hy
  obtain ⟨x, hx, rfl⟩ := hy
  rw [hscale, div_one]
  rcases eq_or_ne ((xs.length : ℚ)) 0 with hn | hn
  · have hlen : xs.length = 0 := by exact_mod_cast hn
    rw [List.length_eq_zero] at hlen
    subst hlen
    cases hx
  · have hsum : (xs.map (fun x => (x - mean xs) ^ 2)).sum = 0 := by
      unfold variance at h
      exact (div_eq_zero_iff.mp h).resolve_right hn
    have hall := all_zero_of_sum_nonneg_zero (xs.map (fun x => (x - mean xs) ^ 2))
      (by
        intro v hv
        rw [List.mem_map] at hv
        obtain ⟨x, _, rfl⟩ := hv
        positivity) hsum
    have hx2 : (x - mean xs) ^ 2 = 0 := hall _ (List.mem_map_of_mem _ hx)
    have := pow_eq_zero_iff (n := 2) (by norm_num) |>.mp hx2
    linarith [this]

/-- C5 amended witness: the zero-variance column [5, 5, 5] gets scale 1 and
standardizes to zeros. -/
theorem c5_zero_variance_policy_witness :
    variance [(5 : ℚ), 5, 5] = 0 ∧
      (scaleOf [(5 : ℚ), 5, 5] 0 = 1 ∧ ∀ y ∈ standardize [(5 : ℚ), 5, 5] 0, y = 0) :=
  ⟨by norm_num [variance, mean],
    c5_zero_variance_policy [(5 : ℚ), 5, 5] 0 (by norm_num [variance, mean])⟩

/-- C7: with at least 25 distinct player identifiers, the ranking of line 152
(mean FantasyPoints per player, sorted descending, head 20) has exactly 20
entries, is sorted in descending order of mean FantasyPoints, and repeats no
player. -/
theorem c7_top20_ranking (rows : List (String × ℚ))
    (h : 25 ≤ (rows.map Prod.fst).dedup.length) :
    (topPlayers rows).length = 20 ∧ List.Sorted fpDesc (topPlayers rows) ∧
      ((topPlayers rows).map Prod.fst).Nodup := by
  have hlenG : (groupMeanFP rows).length = (rows.map Prod.fst).dedup.length := by
    unfold groupMeanFP
    rw [List.length_map]
  have hperm : (List.insertionSort fpDesc (groupMeanFP rows)).Perm (groupMeanFP rows) :=
    List.perm_insertionSort fpDesc (groupMeanFP rows)
  refine ⟨?_, ?_, ?_⟩
  · unfold topPlayers
    rw [List.length_take, hperm.length_eq, hlenG]
    exact min_eq_left (le_trans (by norm_num) h)
  · exact List.Pairwise.sublist (List.take_sublist 20 _)
      (List.sorted_insertionSort fpDesc (groupMeanFP rows))
  · have hmapfst : (groupMeanFP rows).map Prod.fst = (rows.map Prod.fst).dedup := by
      unfold groupMeanFP
      rw [List.map_map]
      simp [Function.comp_def]
    have hnodupG : ((groupMeanFP rows).map Prod.fst).Nodup := by
      rw [hmapfst]
      exact List.nodup_dedup _
    have hnodupS : ((List.insertionSort fpDesc (groupMeanFP rows)).map Prod.fst).Nodup :=
      ((hperm.map Prod.fst).symm).nodup hnodupG
    exact List.Nodup.sublist ((List.take_sublist 20 _).map Prod.fst) hnodupS

/-- C7 witness: a dataset of 25 distinct players yields a 20-entry, descending,
duplicate-free ranking. -/
theorem c7_top20_ranking_witness :
    25 ≤ (rows25.map Prod.fst).dedup.length ∧
      ((topPlayers rows25).length = 20 ∧ List.Sorted fpDesc (topPlayers rows25) ∧
        ((topPlayers rows25).map Prod.fst).Nodup) :=
  ⟨by decide, c7_top20_ranking rows25 (by decide)⟩

/-- Row lookup distributes over row concatenation, left entry first. -/
theorem lookupCell_append (c : String) (a b : Row) :
    lookupCell c (a ++ b) = (lookupCell c a).or (lookupCell c b) := by
  unfold lookupCell
  rw [List.find?_append]
  cases List.find? (fun cv => cv.1 == c) a <;> simp

/-- A lookup misses exactly the names a row does not bind. -/
theorem lookupCell_eq_none_iff (c : String) (r : Row) :
    lookupCell c r = none ↔ c ∉ rowCols r := by
  unfold lookupCell rowCols
  rw [Option.map_eq_none', List.find?_eq_none]
  constructor
  · intro h hc
    rw [List.mem_map] at hc
    obtain ⟨cv, hcv, hfst⟩ := hc
    exact h cv hcv (beq_iff_eq.mpr hfst)
  · intro h cv hcv hbeq
    exact h (List.mem_map.mpr ⟨cv, hcv, beq_iff_eq.mp hbeq⟩)

/-- A bound name has a cell. -/
theorem lookupCell_isSome_of_mem (c : String) (r : Row) (h : c ∈ rowCols r) :
    ∃ v, lookupCell c r = some v := by
  rcases hv : lookupCell c r with _ | v
  · exact absurd ((lookupCell_eq_none_iff c r).mp hv) (by simpa using h)
  · exact ⟨v, rfl⟩

/-- Two pointwise-equal predicates find the same entry. -/
theorem find?_congr_mem {α : Type} (l : List α) (p q : α → Bool)
    (h : ∀ x ∈ l, p x = q x) : l.find? p = l.find? q := by
  induction l with
  | nil => rfl
  | cons a l ih =>
    rw [List.find?_cons, List.find?_cons, h a (List.mem_cons_self a l)]
    cases q a
    · exact ih (fun x hx => h x (List.mem_cons_of_mem a hx))
    · rfl

/-- Dropping entries that cannot match does not change a find. -/
theorem find?_filter_of_imp {α : Type} (l : List α) (p q : α → Bool)
    (h : ∀ x, p x = true → q x = true) : (l.filter q).find? p = l.find? p := by
  induction l with
  | nil => rfl
  | cons a l ih =>
    by_cases hq : q a = true
    · rw [List.filter_cons_of_pos hq, List.find?_cons, List.find?_cons]
      cases p a
      · exact ih
      · rfl
    · rw [List.filter_cons_of_neg hq, List.find?_cons]
      cases hp : p a
      · exact ih
      · exact absurd (h a hp) hq

/-- The first whitespace-free self-match in a name list. -/
theorem find?_beq_eq_some_self (l : List String) (c : String) (h : c ∈ l) :
    l.find? (fun d => d == c) = some c := by
  induction l with
  | nil => cases h
  | cons a l ih =>
    rw [List.find?_cons]
    cases hac : (a == c)
    · have : c ∈ l := by
        rcases List.mem_cons.mp h with rfl | hl
        · simp at hac
        · exact hl
      simpa [hac] using ih this
    · simpa using (beq_iff_eq.mp hac)

/-- Key lookups skip rows made only of non-key cells. -/
theorem lookupCell_eq_none_of_all_nonkey (c : String) (b : Row)
    (hk : isKey c = true) (hb : ∀ cv ∈ b, isKey cv.1 = false) :
    lookupCell c b = none := by
  unfold lookupCell
  rw [Option.map_eq_none', List.find?_eq_none]
  intro cv hcv hbeq
  have : cv.1 = c := beq_iff_eq.mp hbeq
  rw [← this] at hk
  rw [hb cv hcv] at hk
  cases hk

/-- Appending non-key cells to a row does not disturb its join key. -/
theorem keyOf_append_nonkey (a b : Row) (hb : ∀ cv ∈ b, isKey cv.1 = false) :
    keyOf (a ++ b) = keyOf a := by
  unfold keyOf
  rw [lookupCell_append, lookupCell_append,
    lookupCell_eq_none_of_all_nonkey "Player" b rfl hb,
    lookupCell_eq_none_of_all_nonkey "Tm" b rfl hb]
  simp

/-- Looking a present non-key column up in the NaN padding yields NaN. -/
theorem lookupCell_naPad_mem (cols : List String) (c : String)
    (hc : c ∈ cols) (hk : isKey c = false) :
    lookupCell c (naPad cols) = some Cell.na := by
  unfold lookupCell naPad
  rw [List.find?_map]
  have hmem : c ∈ cols.filter (fun d => !isKey d) :=
    List.mem_filter.mpr ⟨hc, by rw [hk]; rfl⟩
  have : (cols.filter (fun d => !isKey d)).find?
      ((fun cv => cv.1 == c) ∘ (fun d => (d, Cell.na))) = some c := by
    have hcongr : ∀ x ∈ cols.filter (fun d => !isKey d),
        ((fun cv => cv.1 == c) ∘ (fun d => (d, Cell.na))) x = (fun d => d == c) x :=
      fun x _ => rfl
    rw [find?_congr_mem _ _ _ hcongr]
    exact find?_beq_eq_some_self _ c hmem
  rw [this]
  rfl

/-- Looking an absent name up in the NaN padding misses. -/
theorem lookupCell_naPad_not_mem (cols : List String) (c : String)
    (hc : c ∉ cols.filter (fun d => !isKey d)) :
    lookupCell c (naPad cols) = none := by
  unfold lookupCell naPad
  rw [Option.map_eq_none', List.find?_eq_none]
  intro cv hcv hbeq
  rw [List.mem_map] at hcv
  obtain ⟨d, hd, rfl⟩ := hcv
  exact hc ((beq_iff_eq.mp hbeq : d = c) ▸ hd)

/-- Non-key lookups see through the non-key filter of a row. -/
theorem lookupCell_nonKeyCells (c : String) (r : Row) (hk : isKey c = false) :
    lookupCell c (nonKeyCells r) = lookupCell c r := by
  unfold lookupCell nonKeyCells
  rw [find?_filter_of_imp]
  intro cv hcv
  rw [(beq_iff_eq.mp hcv : cv.1 = c), hk]
  rfl

/-- Key lookups see through the key filter of a row. -/
theorem lookupCell_keyCells (c : String) (r : Row) (hk : isKey c = true) :
    lookupCell c (keyCells r) = lookupCell c r := by
  unfold lookupCell keyCells
  rw [find?_filter_of_imp]
  intro cv hcv
  rw [(beq_iff_eq.mp hcv : cv.1 = c)]
  exact hk

/-- Non-key lookups miss the key cells of a row. -/
theorem lookupCell_keyCells_none (c : String) (r : Row) (hk : isKey c = false) :
    lookupCell c (keyCells r) = none := by
  unfold lookupCell keyCells
  rw [Option.map_eq_none', List.find?_eq_none]
  intro cv hcv hbeq
  have h1 := (List.mem_filter.mp hcv).2
  rw [(beq_iff_eq.mp hbeq : cv.1 = c), hk] at h1
  cases h1

/-- Renaming a shared non-key column appends the suffix. -/
theorem sufCol_mem (ov : List String) (suf c : String) (h : c ∈ ov) :
    sufCol ov suf c = c ++ suf := by
  unfold sufCol
  rw [if_pos (List.elem_eq_true_of_mem h)]

/-- Renaming leaves a non-shared column name unchanged. -/
theorem sufCol_not_mem (ov : List String) (suf c : String) (h : c ∉ ov) :
    sufCol ov suf c = c := by
  unfold sufCol
  rw [if_neg (fun hc => h (List.mem_of_elem_eq_true hc))]

/-- A non-key column present in both tables is a suffixed (overlap) column. -/
theorem mem_overlapCols (l r : Table) (c : String) (hcl : c ∈ l.cols)
    (hcr : c ∈ r.cols) (hck : isKey c = false) : c ∈ overlapCols l r := by
  unfold overlapCols
  rw [List.mem_filter]
  refine ⟨hcl, ?_⟩
  rw [hck]
  simpa using List.elem_eq_true_of_mem hcr

/-- An overlap column is a non-key column of both tables. -/
theorem overlapCols_spec (l r : Table) (c : String) (h : c ∈ overlapCols l r) :
    c ∈ l.cols ∧ c ∈ r.cols ∧ isKey c = false := by
  unfold overlapCols at h
  rw [List.mem_filter, Bool.and_eq_true, Bool.not_eq_true'] at h
  exact ⟨h.1, List.mem_of_elem_eq_true h.2.2, h.2.1⟩

/-- The column list of the merged table: left columns renamed, then the
non-key right columns renamed. -/
theorem mergeOuter_cols (l r : Table) (sl sr : String) :
    (mergeOuter l r sl sr).cols =
      l.cols.map (sufCol (overlapCols l r) sl) ++
        (r.cols.map (sufCol (overlapCols l r) sr)).filter (fun c => !isKey c) := rfl

/-- Renaming preserves non-key status when suffixed names stay non-key. -/
theorem isKey_sufCol (ov : List String) (suf c : String)
    (hks : ∀ d ∈ ov, isKey (d ++ suf) = false) (hc : isKey c = false) :
    isKey (sufCol ov suf c) = false := by
  by_cases hov : c ∈ ov
  · rw [sufCol_mem ov suf c hov]
    exact hks c hov
  · rw [sufCol_not_mem ov suf c hov]
    exact hc

/-- The names a renamed row binds are the renamed names. -/
theorem rowCols_renRow (ov : List String) (suf : String) (r : Row) :
    rowCols (renRow ov suf r) = (rowCols r).map (sufCol ov suf) := by
  unfold rowCols renRow
  rw [List.map_map, List.map_map]
  rfl

/-- Looking a renamed column up in a renamed row is the original lookup,
provided the rename is injective on a name set covering the row and the
column. -/
theorem lookupCell_renRow (ov : List String) (suf : String) (r : Row) (c : String)
    (S : List String) (hr : ∀ d ∈ rowCols r, d ∈ S) (hc : c ∈ S)
    (hinj : ∀ a ∈ S, ∀ b ∈ S, sufCol ov suf a = sufCol ov suf b → a = b) :
    lookupCell (sufCol ov suf c) (renRow ov suf r) = lookupCell c r := by
  unfold lookupCell renRow
  rw [List.find?_map]
  have hcongr : ∀ cv ∈ r,
      ((fun cv => cv.1 == sufCol ov suf c) ∘ (fun cv => (sufCol ov suf cv.1, cv.2))) cv
        = (fun cv => cv.1 == c) cv := by
    intro cv hcv
    show (sufCol ov suf cv.1 == sufCol ov suf c) = (cv.1 == c)
    rcases hb : (cv.1 == c) with _ | _
    · rcases hs : (sufCol ov suf cv.1 == sufCol ov suf c) with _ | _
      · rfl
      · have := hinj cv.1 (hr cv.1 (List.mem_map_of_mem _ hcv)) c hc (beq_iff_eq.mp hs)
        rw [this] at hb
        simp at hb
    · rw [beq_iff_eq.mp hb]
      exact beq_iff_eq.mpr rfl
  rw [find?_congr_mem _ _ _ hcongr, Option.map_map]
  rfl

/-- Renaming with an overlap list of non-key names whose suffixed forms stay
non-key does not disturb the join key of a row. -/
theorem keyOf_renRow (ov : List String) (suf : String) (r : Row)
    (hks : ∀ d ∈ ov, isKey (d ++ suf) = false)
    (hovnk : ∀ d ∈ ov, isKey d = false) :
    keyOf (renRow ov suf r) = keyOf r := by
  have hkey : ∀ kn : String, isKey kn = true →
      lookupCell kn (renRow ov suf r) = lookupCell kn r := by
    intro kn hkn
    unfold lookupCell renRow
    rw [List.find?_map]
    have hcongr : ∀ cv ∈ r,
        ((fun cv => cv.1 == kn) ∘ (fun cv => (sufCol ov suf cv.1, cv.2))) cv
          = (fun cv => cv.1 == kn) cv := by
      intro cv _
      show (sufCol ov suf cv.1 == kn) = (cv.1 == kn)
      by_cases hov : cv.1 ∈ ov
      · rw [sufCol_mem ov suf cv.1 hov]
        have h1 : (cv.1 ++ suf) ≠ kn := by
          intro he
          have h := hks cv.1 hov
          rw [he] at h
          simp [h] at hkn
        have h2 : cv.1 ≠ kn := by
          intro he
          have h := hovnk cv.1 hov
          rw [he] at h
          simp [h] at hkn
        rw [beq_eq_false_iff_ne.mpr h1, beq_eq_false_iff_ne.mpr h2]
      · rw [sufCol_not_mem ov suf cv.1 hov]
    rw [find?_congr_mem _ _ _ hcongr, Option.map_map]
    rfl
  unfold keyOf
  rw [hkey "Player" rfl, hkey "Tm" rfl]

/-- The rows of the merged table, by construction. -/
theorem mergeOuter_rows (l r : Table) (sl sr : String) :
    (mergeOuter l r sl sr).rows =
      ((renTable (overlapCols l r) sl l).rows.flatMap (fun lr =>
        let ms := (renTable (overlapCols l r) sr r).rows.filter
          (fun rr => decide (keyOf rr = keyOf lr))
        if ms.isEmpty then [lr ++ naPad (renTable (overlapCols l r) sr r).cols]
        else ms.map (fun rr => lr ++ nonKeyCells rr)))
      ++ (((renTable (overlapCols l r) sr r).rows.filter
            (fun rr => !((renTable (overlapCols l r) sl l).rows.any
              (fun lr => decide (keyOf lr = keyOf rr))))).map
            (fun rr => keyCells rr ++ naPad (renTable (overlapCols l r) sl l).cols
              ++ nonKeyCells rr)) := rfl

/-- C3 counterexample: with a Yds column shared by passing and rushing and an
Fmb column shared by the first-join result and receiving, the first join
suffixes Yds into Yds_pass and Yds_rush (as the claim states), but the second
join also suffixes — with pandas' defaults — producing Fmb_x and Fmb_y, no
unsuffixed Fmb column, and both conflicting values retained unshadowed. -/
theorem c3_counterexample :
    ("Yds_pass" ∈ (mergeOuter passingEx rushingEx "_pass" "_rush").cols ∧
      "Yds_rush" ∈ (mergeOuter passingEx rushingEx "_pass" "_rush").cols ∧
      "Yds" ∉ (mergeOuter passingEx rushingEx "_pass" "_rush").cols) ∧
    ("Fmb_x" ∈ (mergeOuter (mergeOuter passingEx rushingEx "_pass" "_rush") receivingEx "_x" "_y").cols ∧
      "Fmb_y" ∈ (mergeOuter (mergeOuter passingEx rushingEx "_pass" "_rush") receivingEx "_x" "_y").cols ∧
      "Fmb" ∉ (mergeOuter (mergeOuter passingEx rushingEx "_pass" "_rush") receivingEx "_x" "_y").cols) ∧
    (∃ row ∈ (mergeOuter (mergeOuter passingEx rushingEx "_pass" "_rush") receivingEx "_x" "_y").rows,
      lookupCell "Fmb_x" row = some (Cell.n 2) ∧ lookupCell "Fmb_y" row = some (Cell.n 5)) := by
  decide

/-- C3 amended: in every merge of the pipeline — the receiving join included —
a conflicting (shared non-key) column name is suffixed on both sides (with
'_pass'/'_rush' in the first join and with pandas' defaults '_x'/'_y' in the
second), and the unsuffixed name does not survive, so no column is silently
shadowed.  The name-collision side conditions exclude a pre-existing column
equal to a suffixed name. -/
theorem c3_merge_suffixes_conflicts (l r : Table) (sl sr c : String)
    (hcl : c ∈ l.cols) (hcr : c ∈ r.cols) (hck : isKey c = false)
    (h1 : ∀ d ∈ overlapCols l r, d ++ sl ≠ c) (h2 : ∀ d ∈ overlapCols l r, d ++ sr ≠ c)
    (h3 : isKey (c ++ sr) = false) :
    (c ++ sl) ∈ (mergeOuter l r sl sr).cols ∧ (c ++ sr) ∈ (mergeOuter l r sl sr).cols ∧
      c ∉ (mergeOuter l r sl sr).cols := by
  have hov : c ∈ overlapCols l r := mem_overlapCols l r c hcl hcr hck
  rw [mergeOuter_cols]
  refine ⟨?_, ?_, ?_⟩
  · exact List.mem_append_left _ (List.mem_map.mpr ⟨c, hcl, sufCol_mem _ _ _ hov⟩)
  · refine List.mem_append_right _ (List.mem_filter.mpr ⟨?_, by rw [h3]; rfl⟩)
    exact List.mem_map.mpr ⟨c, hcr, sufCol_mem _ _ _ hov⟩
  · intro hc
    rcases List.mem_append.mp hc with hl | hr
    · obtain ⟨d, hd, hdc⟩ := List.mem_map.mp hl
      by_cases hdov : d ∈ overlapCols l r
      · exact h1 d hdov (by rwa [sufCol_mem _ _ _ hdov] at hdc)
      · rw [sufCol_not_mem _ _ _ hdov] at hdc
        exact hdov (hdc ▸ hov)
    · obtain ⟨d, hd, hdc⟩ := List.mem_map.mp (List.mem_filter.mp hr).1
      by_cases hdov : d ∈ overlapCols l r
      · exact h2 d hdov (by rwa [sufCol_mem _ _ _ hdov] at hdc)
      · rw [sufCol_not_mem _ _ _ hdov] at hdc
        exact hdov (hdc ▸ hov)

/-- C3 amended witness: in the second (receiving) join of the example tables,
the conflicting Fmb column is suffixed into Fmb_x and Fmb_y and the bare name
Fmb does not survive. -/
theorem c3_merge_suffixes_conflicts_witness :
    ("Fmb" ∈ (mergeOuter passingEx rushingEx "_pass" "_rush").cols ∧
      "Fmb" ∈ receivingEx.cols ∧ isKey "Fmb" = false) ∧
    ("Fmb_x" ∈ (mergeOuter (mergeOuter passingEx rushingEx "_pass" "_rush") receivingEx "_x" "_y").cols ∧
      "Fmb_y" ∈ (mergeOuter (mergeOuter passingEx rushingEx "_pass" "_rush") receivingEx "_x" "_y").cols ∧
      "Fmb" ∉ (mergeOuter (mergeOuter passingEx rushingEx "_pass" "_rush") receivingEx "_x" "_y").cols) :=
  ⟨⟨by decide, by decide, by decide⟩,
    c3_merge_suffixes_conflicts (mergeOuter passingEx rushingEx "_pass" "_rush") receivingEx
      "_x" "_y" "Fmb" (by decide) (by decide) (by decide) (by decide) (by decide) (by decide)⟩

/-- A successful Position extraction appends exactly one Position cell. -/
theorem addPositionRow_spec (r r2 : Row) (h : addPositionRow r = some r2) :
    ∃ p, r2 = r ++ [("Position", Cell.s p)] := by
  unfold addPositionRow at h
  cases hl : lookupCell "Player" r with
  | none => rw [hl] at h; cases h
  | some cell =>
    rw [hl] at h
    cases cell with
    | s nm =>
      rw [Option.map_eq_some'] at h
      obtain ⟨p, _, hp⟩ := h
      exact ⟨p, hp.symm⟩
    | n v => cases h
    | na => cases h

/-- The Position assignment maps rows one-to-one, appending one cell each. -/
theorem mapM_addPositionRow_forall (rows rs : List Row)
    (h : rows.mapM addPositionRow = some rs) :
    List.Forall₂ (fun r r2 => ∃ p, r2 = r ++ [("Position", Cell.s p)]) rows rs := by
  induction rows generalizing rs with
  | nil =>
    rw [List.mapM_nil] at h
    cases h
    exact List.Forall₂.nil
  | cons r rows ih =>
    rw [List.mapM_cons] at h
    cases ha : addPositionRow r with
    | none => rw [ha] at h; simp at h
    | some r2 =>
      rw [ha] at h
      cases hm : rows.mapM addPositionRow with
      | none => rw [hm] at h; simp at h
      | some rs2 =>
        rw [hm] at h
        simp only [Option.bind_eq_bind, Option.some_bind, Option.pure_def, Option.some.injEq] at h
        subst h
        exact List.Forall₂.cons (addPositionRow_spec r r2 ha) (ih rs2 hm)

/-- C9 counterexample: the Analyzer does not leave the dataset it read
unchanged — line 163 adds a Position column to the in-memory dataset. -/
theorem c9_counterexample :
    addPosition analyzedEx ≠ some analyzedEx ∧
      addPosition analyzedEx = some
        ⟨["Player", "FantasyPoints", "Position"],
          [[("Player", Cell.s "Patrick Mahomes QB"), ("FantasyPoints", Cell.n 1),
            ("Position", Cell.s "QB")]]⟩ := by
  decide

/-- C9 amended: the Analyzer persists nothing and leaves every pre-existing
column and cell intact, but it does mutate the in-memory dataset in exactly
one way: line 163 appends a derived Position column (all other Analyzer
operations — describe, corr, plots, groupby — are reads). -/
theorem c9_analyzer_adds_only_position (t t2 : Table) (h : addPosition t = some t2) :
    t2.cols = t.cols ++ ["Position"] ∧
      List.Forall₂ (fun r r2 => ∃ p, r2 = r ++ [("Position", Cell.s p)]) t.rows t2.rows := by
  unfold addPosition at h
  rw [Option.map_eq_some'] at h
  obtain ⟨rs, hrs, heq⟩ := h
  subst heq
  exact ⟨rfl, mapM_addPositionRow_forall t.rows rs hrs⟩

/-- C9 amended witness: on the one-row example dataset the Analyzer output
keeps the original columns and appends Position. -/
theorem c9_analyzer_adds_only_position_witness :
    (Table.mk ["Player", "FantasyPoints", "Position"]
        [[("Player", Cell.s "Patrick Mahomes QB"), ("FantasyPoints", Cell.n 1),
          ("Position", Cell.s "QB")]]).cols = analyzedEx.cols ++ ["Position"] ∧
      List.Forall₂ (fun r r2 => ∃ p, r2 = r ++ [("Position", Cell.s p)]) analyzedEx.rows
        (Table.mk ["Player", "FantasyPoints", "Position"]
          [[("Player", Cell.s "Patrick Mahomes QB"), ("FantasyPoints", Cell.n 1),
            ("Position", Cell.s "QB")]]).rows :=
  c9_analyzer_adds_only_position analyzedEx
    ⟨["Player", "FantasyPoints", "Position"],
      [[("Player", Cell.s "Patrick Mahomes QB"), ("FantasyPoints", Cell.n 1),
        ("Position", Cell.s "QB")]]⟩ (by decide)

/-- C10: a player identifier that is empty or all whitespace has no
whitespace-delimited token, so the Position extraction of line 163 fails
(Python raises IndexError on the empty token list) instead of producing a
label; the Analyzer run on such a row aborts. -/
theorem c10_position_extraction_fails_on_blank :
    positionOf "" = none ∧ positionOf "   " = none ∧
      addPosition ⟨["Player"], [[("Player", Cell.s "   ")]]⟩ = none := by
  decide

/-- Every cell of a NaN pad is a non-key cell. -/
theorem naPad_all_nonkey (cols : List String) :
    ∀ cv ∈ naPad cols, isKey cv.1 = false := by
  intro cv hcv
  unfold naPad at hcv
  rw [List.mem_map] at hcv
  obtain ⟨d, hd, rfl⟩ := hcv
  exact (Bool.not_eq_true' (isKey d)) ▸ (List.mem_filter.mp hd).2

/-- Every cell of `nonKeyCells r` is a non-key cell. -/
theorem nonKeyCells_all_nonkey (r : Row) :
    ∀ cv ∈ nonKeyCells r, isKey cv.1 = false := by
  intro cv hcv
  exact (Bool.not_eq_true' (isKey cv.1)) ▸ (List.mem_filter.mp hcv).2

/-- Outer join, left-row case: each left row survives into the merged table;
its own (suffix-renamed) columns keep their values; the right-side columns
are NaN when the key is absent from the right table and carry a matching
right row's values when present. -/
theorem mergeOuter_left_row (l r : Table) (sl sr : String)
    (k : Option Cell × Option Cell) (lrow : Row)
    (hlrow : lrow ∈ l.rows) (hk : keyOf lrow = k)
    (hld : ∀ row ∈ l.rows, ∀ c ∈ rowCols row, c ∈ l.cols)
    (hlc : ∀ c ∈ l.cols, c ∈ rowCols lrow)
    (hrd : ∀ row ∈ r.rows, ∀ c ∈ rowCols row, c ∈ r.cols)
    (hinjl : ∀ a ∈ l.cols, ∀ b ∈ l.cols,
      sufCol (overlapCols l r) sl a = sufCol (overlapCols l r) sl b → a = b)
    (hinjr : ∀ a ∈ r.cols, ∀ b ∈ r.cols,
      sufCol (overlapCols l r) sr a = sufCol (overlapCols l r) sr b → a = b)
    (hksl : ∀ d ∈ overlapCols l r, isKey (d ++ sl) = false)
    (hksr : ∀ d ∈ overlapCols l r, isKey (d ++ sr) = false)
    (hdisj : ∀ c ∈ r.cols, isKey c = false →
      sufCol (overlapCols l r) sr c ∉ l.cols.map (sufCol (overlapCols l r) sl)) :
    ∃ row ∈ (mergeOuter l r sl sr).rows,
      keyOf row = k ∧
      (∀ c ∈ l.cols, lookupCell (sufCol (overlapCols l r) sl c) row = lookupCell c lrow) ∧
      (¬ present k r → ∀ c ∈ r.cols, isKey c = false →
        lookupCell (sufCol (overlapCols l r) sr c) row = some Cell.na) ∧
      (present k r → ∃ rrow ∈ r.rows, keyOf rrow = k ∧ ∀ c ∈ r.cols, isKey c = false →
        lookupCell (sufCol (overlapCols l r) sr c) row = lookupCell c rrow) := by
  have hovnk : ∀ d ∈ overlapCols l r, isKey d = false :=
    fun d hd => (overlapCols_spec l r d hd).2.2
  have hmeml : renRow (overlapCols l r) sl lrow ∈ (renTable (overlapCols l r) sl l).rows :=
    List.mem_map_of_mem _ hlrow
  have hkey2 : keyOf (renRow (overlapCols l r) sl lrow) = k :=
    (keyOf_renRow (overlapCols l r) sl lrow hksl hovnk).trans hk
  have hlook2 : ∀ c ∈ l.cols,
      lookupCell (sufCol (overlapCols l r) sl c) (renRow (overlapCols l r) sl lrow)
        = lookupCell c lrow :=
    fun c hc => lookupCell_renRow (overlapCols l r) sl lrow c l.cols (hld lrow hlrow) hc hinjl
  have hcols2 : ∀ d ∈ rowCols (renRow (overlapCols l r) sl lrow),
      d ∈ l.cols.map (sufCol (overlapCols l r) sl) := by
    intro d hd
    rw [rowCols_renRow, List.mem_map] at hd
    obtain ⟨a, ha, rfl⟩ := hd
    exact List.mem_map_of_mem _ (hld lrow hlrow a ha)
  have hleftSome : ∀ c ∈ l.cols, ∀ b : Row,
      lookupCell (sufCol (overlapCols l r) sl c) (renRow (overlapCols l r) sl lrow ++ b)
        = lookupCell c lrow := by
    intro c hc b
    rw [lookupCell_append, ← hlook2 c hc]
    obtain ⟨v, hv⟩ := lookupCell_isSome_of_mem (sufCol (overlapCols l r) sl c)
      (renRow (overlapCols l r) sl lrow)
      (by rw [rowCols_renRow]; exact List.mem_map_of_mem _ (hlc c hc))
    rw [hv]
    exact Option.or_some
  have hmissLeft : ∀ c ∈ r.cols, isKey c = false →
      lookupCell (sufCol (overlapCols l r) sr c) (renRow (overlapCols l r) sl lrow)
        = none := by
    intro c hc hck
    rw [lookupCell_eq_none_iff]
    intro hmem
    exact hdisj c hc hck (hcols2 _ hmem)
  by_cases hpr : present k r
  · obtain ⟨rrow, hrmem, hrk⟩ := hpr
    have hrmem2 : renRow (overlapCols l r) sr rrow ∈ (renTable (overlapCols l r) sr r).rows :=
      List.mem_map_of_mem _ hrmem
    have hrkey2 : keyOf (renRow (overlapCols l r) sr rrow) = k :=
      (keyOf_renRow (overlapCols l r) sr rrow hksr hovnk).trans hrk
    have hms : renRow (overlapCols l r) sr rrow ∈
        (renTable (overlapCols l r) sr r).rows.filter
          (fun rr => decide (keyOf rr = keyOf (renRow (overlapCols l r) sl lrow))) :=
      List.mem_filter.mpr ⟨hrmem2, by rw [decide_eq_true_eq, hrkey2, hkey2]⟩
    have hne : ((renTable (overlapCols l r) sr r).rows.filter
        (fun rr => decide (keyOf rr = keyOf (renRow (overlapCols l r) sl lrow)))).isEmpty
          = false :=
      List.isEmpty_eq_false.mpr (List.ne_nil_of_mem hms)
    refine ⟨renRow (overlapCols l r) sl lrow ++ nonKeyCells (renRow (overlapCols l r) sr rrow),
      ?_, ?_, ?_, ?_, ?_⟩
    · rw [mergeOuter_rows]
      refine List.mem_append_left _ (List.mem_flatMap.mpr ⟨renRow (overlapCols l r) sl lrow,
        hmeml, ?_⟩)
      simp only [hne, Bool.false_eq_true, if_false]
      exact List.mem_map_of_mem _ hms
    · rw [keyOf_append_nonkey _ _ (nonKeyCells_all_nonkey _), hkey2]
    · exact fun c hc => hleftSome c hc _
    · intro hnp
      exact absurd ⟨rrow, hrmem, hrk⟩ hnp
    · intro _
      refine ⟨rrow, hrmem, hrk, ?_⟩
      intro c hc hck
      rw [lookupCell_append, hmissLeft c hc hck, Option.none_or,
        lookupCell_nonKeyCells _ _ (isKey_sufCol (overlapCols l r) sr c hksr hck)]
      exact lookupCell_renRow (overlapCols l r) sr rrow c r.cols (hrd rrow hrmem) hc hinjr
  · have hms : (renTable (overlapCols l r) sr r).rows.filter
        (fun rr => decide (keyOf rr = keyOf (renRow (overlapCols l r) sl lrow))) = [] := by
      rw [List.filter_eq_nil_iff]
      intro rr hrr
      rw [decide_eq_true_eq]
      intro hkeq
      obtain ⟨rrow0, hr0, rfl⟩ := List.mem_map.mp hrr
      exact hpr ⟨rrow0, hr0,
        (keyOf_renRow (overlapCols l r) sr rrow0 hksr hovnk).symm.trans (hkeq.trans hkey2)⟩
    refine ⟨renRow (overlapCols l r) sl lrow ++ naPad (renTable (overlapCols l r) sr r).cols,
      ?_, ?_, ?_, ?_, ?_⟩
    · rw [mergeOuter_rows]
      refine List.mem_append_left _ (List.mem_flatMap.mpr ⟨renRow (overlapCols l r) sl lrow,
        hmeml, ?_⟩)
      simp only [hms, List.isEmpty_nil, if_true]
      exact List.mem_singleton.mpr rfl
    · rw [keyOf_append_nonkey _ _ (naPad_all_nonkey _), hkey2]
    · exact fun c hc => hleftSome c hc _
    · intro _ c hc hck
      rw [lookupCell_append, hmissLeft c hc hck, Option.none_or]
      exact lookupCell_naPad_mem _ _ (List.mem_map_of_mem _ hc)
        (isKey_sufCol (overlapCols l r) sr c hksr hck)
    · intro hpr2
      exact absurd hpr2 hpr

/-- The join key of an unmatched right row's merged form is the right row's. -/
theorem keyOf_right_only_row (lcols : List String) (rr : Row) :
    keyOf (keyCells rr ++ naPad lcols ++ nonKeyCells rr) = keyOf rr := by
  have h : ∀ kn : String, isKey kn = true →
      lookupCell kn (keyCells rr ++ naPad lcols ++ nonKeyCells rr) = lookupCell kn rr := by
    intro kn hkn
    rw [lookupCell_append, lookupCell_append,
      lookupCell_eq_none_of_all_nonkey kn (naPad lcols) hkn (naPad_all_nonkey _),
      lookupCell_eq_none_of_all_nonkey kn (nonKeyCells rr) hkn (nonKeyCells_all_nonkey _),
      Option.or_none, Option.or_none, lookupCell_keyCells kn rr hkn]
  unfold keyOf
  rw [h "Player" rfl, h "Tm" rfl]

/-- Outer join, unmatched-right-row case: a right row whose key is absent
from the left table survives into the merged table with every non-key left
column NaN and its own (suffix-renamed) columns intact. -/
theorem mergeOuter_right_only_row (l r : Table) (sl sr : String)
    (k : Option Cell × Option Cell) (rrow : Row)
    (hrrow : rrow ∈ r.rows) (hk : keyOf rrow = k) (hnl : ¬ present k l)
    (hrd : ∀ row ∈ r.rows, ∀ c ∈ rowCols row, c ∈ r.cols)
    (hinjr : ∀ a ∈ r.cols, ∀ b ∈ r.cols,
      sufCol (overlapCols l r) sr a = sufCol (overlapCols l r) sr b → a = b)
    (hksl : ∀ d ∈ overlapCols l r, isKey (d ++ sl) = false)
    (hksr : ∀ d ∈ overlapCols l r, isKey (d ++ sr) = false)
    (hdisj : ∀ c ∈ r.cols, isKey c = false →
      sufCol (overlapCols l r) sr c ∉ l.cols.map (sufCol (overlapCols l r) sl)) :
    ∃ row ∈ (mergeOuter l r sl sr).rows,
      keyOf row = k ∧
      (∀ c ∈ l.cols, isKey c = false →
        lookupCell (sufCol (overlapCols l r) sl c) row = some Cell.na) ∧
      (∀ c ∈ r.cols, isKey c = false →
        lookupCell (sufCol (overlapCols l r) sr c) row = lookupCell c rrow) := by
  have hovnk : ∀ d ∈ overlapCols l r, isKey d = false :=
    fun d hd => (overlapCols_spec l r d hd).2.2
  have hrmem2 : renRow (overlapCols l r) sr rrow ∈ (renTable (overlapCols l r) sr r).rows :=
    List.mem_map_of_mem _ hrrow
  have hrkey2 : keyOf (renRow (overlapCols l r) sr rrow) = k :=
    (keyOf_renRow (overlapCols l r) sr rrow hksr hovnk).trans hk
  have hfilt : renRow (overlapCols l r) sr rrow ∈
      (renTable (overlapCols l r) sr r).rows.filter
        (fun rr => !((renTable (overlapCols l r) sl l).rows.any
          (fun lr => decide (keyOf lr = keyOf rr)))) := by
    refine List.mem_filter.mpr ⟨hrmem2, ?_⟩
    rw [Bool.not_eq_true']
    rw [List.any_eq_false]
    intro lr2 hlr2
    rw [decide_eq_true_eq]
    intro hkeq
    obtain ⟨lrow0, hl0, rfl⟩ := List.mem_map.mp hlr2
    exact hnl ⟨lrow0, hl0,
      (keyOf_renRow (overlapCols l r) sl lrow0 hksl hovnk).symm.trans (hkeq.trans hrkey2)⟩
  refine ⟨keyCells (renRow (overlapCols l r) sr rrow)
      ++ naPad (renTable (overlapCols l r) sl l).cols
      ++ nonKeyCells (renRow (overlapCols l r) sr rrow), ?_, ?_, ?_, ?_⟩
  · rw [mergeOuter_rows]
    exact List.mem_append_right _ (List.mem_map_of_mem _ hfilt)
  · rw [keyOf_right_only_row, hrkey2]
  · intro c hc hck
    have hnk : isKey (sufCol (overlapCols l r) sl c) = false :=
      isKey_sufCol (overlapCols l r) sl c hksl hck
    rw [lookupCell_append, lookupCell_append,
      lookupCell_keyCells_none _ _ hnk,
      show (renTable (overlapCols l r) sl l).cols
        = l.cols.map (sufCol (overlapCols l r) sl) from rfl,
      lookupCell_naPad_mem _ _ (List.mem_map_of_mem _ hc) hnk,
      Option.none_or]
    exact Option.or_some
  · intro c hc hck
    have hnk : isKey (sufCol (overlapCols l r) sr c) = false :=
      isKey_sufCol (overlapCols l r) sr c hksr hck
    have hpadnone : lookupCell (sufCol (overlapCols l r) sr c)
        (naPad (renTable (overlapCols l r) sl l).cols) = none := by
      apply lookupCell_naPad_not_mem
      intro hmem
      exact hdisj c hc hck (List.mem_filter.mp hmem).1
    rw [lookupCell_append, lookupCell_append,
      lookupCell_keyCells_none _ _ hnk, hpadnone, Option.none_or, Option.none_or,
      lookupCell_nonKeyCells _ _ hnk]
    exact lookupCell_renRow (overlapCols l r) sr rrow c r.cols (hrd rrow hrrow) hc hinjr

/-- Key soundness of the outer join: every merged key comes from a source
table (with the usual domain side conditions). -/
theorem present_mergeOuter (l r : Table) (sl sr : String)
    (k : Option Cell × Option Cell)
    (hksl : ∀ d ∈ overlapCols l r, isKey (d ++ sl) = false)
    (hksr : ∀ d ∈ overlapCols l r, isKey (d ++ sr) = false)
    (hp : present k (mergeOuter l r sl sr)) : present k l ∨ present k r := by
  have hovnk : ∀ d ∈ overlapCols l r, isKey d = false :=
    fun d hd => (overlapCols_spec l r d hd).2.2
  obtain ⟨row, hrowm, hkey⟩ := hp
  rw [mergeOuter_rows] at hrowm
  rcases List.mem_append.mp hrowm with hfl | hrt
  · rw [List.mem_flatMap] at hfl
    obtain ⟨lr2, hlr2, hrowin⟩ := hfl
    obtain ⟨lrow0, hl0, rfl⟩ := List.mem_map.mp hlr2
    left
    refine ⟨lrow0, hl0, ?_⟩
    rw [← keyOf_renRow (overlapCols l r) sl lrow0 hksl hovnk, ← hkey]
    by_cases hemp : ((renTable (overlapCols l r) sr r).rows.filter
        (fun rr => decide (keyOf rr = keyOf (renRow (overlapCols l r) sl lrow0)))).isEmpty
          = true
    · simp only [hemp, if_true] at hrowin
      rw [List.mem_singleton.mp hrowin]
      exact (keyOf_append_nonkey _ _ (naPad_all_nonkey _)).symm
    · rw [Bool.not_eq_true] at hemp
      simp only [hemp, Bool.false_eq_true, if_false] at hrowin
      obtain ⟨rr, _, rfl⟩ := List.mem_map.mp hrowin
      exact (keyOf_append_nonkey _ _ (nonKeyCells_all_nonkey _)).symm
  · obtain ⟨rr2, hrr2f, rfl⟩ := List.mem_map.mp hrt
    have hrr2 := (List.mem_filter.mp hrr2f).1
    obtain ⟨rrow0, hr0, rfl⟩ := List.mem_map.mp hrr2
    right
    refine ⟨rrow0, hr0, ?_⟩
    rw [← keyOf_renRow (overlapCols l r) sr rrow0 hksr hovnk, ← hkey]
    exact (keyOf_right_only_row _ _).symm

/-- Zero-filling commutes with cell lookup. -/
theorem lookupCell_fillRow (c : String) (r : Row) :
    lookupCell c (fillRow r) = (lookupCell c r).map fillCell := by
  unfold lookupCell fillRow
  rw [List.find?_map,
    show ((fun cv => cv.1 == c) ∘ (fun cv : String × Cell => (cv.1, fillCell cv.2)))
      = (fun cv : String × Cell => cv.1 == c) from rfl,
    Option.map_map, Option.map_map]
  rfl

/-- Zero-filling a row with string key cells keeps its join key. -/
theorem keyOf_fillRow (r : Row) (p t0 : String)
    (hp : lookupCell "Player" r = some (Cell.s p))
    (ht : lookupCell "Tm" r = some (Cell.s t0)) :
    keyOf (fillRow r) = keyOf r := by
  unfold keyOf
  rw [lookupCell_fillRow, lookupCell_fillRow, hp, ht]
  simp [fillCell]

/-- C2: every (player, team) key present in at least one of the three
offensive category tables yields a row of the merged season record, and in
that row every column originating from a category table lacking the key is 0
after the zero-fill.  The side conditions say each table binds exactly its
columns in every row, carries no duplicate or key-colliding suffixed names,
and the key cells are strings. -/
theorem c2_outer_join_zero_fill (P R V : Table) (k : Option Cell × Option Cell)
    (hkp : ∃ p, k.1 = some (Cell.s p)) (hkt : ∃ t0, k.2 = some (Cell.s t0))
    (hPd : ∀ row ∈ P.rows, ∀ c ∈ rowCols row, c ∈ P.cols)
    (hPc : ∀ row ∈ P.rows, ∀ c ∈ P.cols, c ∈ rowCols row)
    (hRd : ∀ row ∈ R.rows, ∀ c ∈ rowCols row, c ∈ R.cols)
    (hVd : ∀ row ∈ V.rows, ∀ c ∈ rowCols row, c ∈ V.cols)
    (hM1d : ∀ row ∈ (mergeOuter P R "_pass" "_rush").rows, ∀ c ∈ rowCols row,
      c ∈ (mergeOuter P R "_pass" "_rush").cols)
    (hM1c : ∀ row ∈ (mergeOuter P R "_pass" "_rush").rows,
      ∀ c ∈ (mergeOuter P R "_pass" "_rush").cols, c ∈ rowCols row)
    (hinj1l : ∀ a ∈ P.cols, ∀ b ∈ P.cols,
      sufCol (overlapCols P R) "_pass" a = sufCol (overlapCols P R) "_pass" b → a = b)
    (hinj1r : ∀ a ∈ R.cols, ∀ b ∈ R.cols,
      sufCol (overlapCols P R) "_rush" a = sufCol (overlapCols P R) "_rush" b → a = b)
    (hinj2l : ∀ a ∈ (mergeOuter P R "_pass" "_rush").cols,
      ∀ b ∈ (mergeOuter P R "_pass" "_rush").cols,
      sufCol (overlapCols (mergeOuter P R "_pass" "_rush") V) "_x" a
        = sufCol (overlapCols (mergeOuter P R "_pass" "_rush") V) "_x" b → a = b)
    (hinj2r : ∀ a ∈ V.cols, ∀ b ∈ V.cols,
      sufCol (overlapCols (mergeOuter P R "_pass" "_rush") V) "_y" a
        = sufCol (overlapCols (mergeOuter P R "_pass" "_rush") V) "_y" b → a = b)
    (hks1l : ∀ d ∈ overlapCols P R, isKey (d ++ "_pass") = false)
    (hks1r : ∀ d ∈ overlapCols P R, isKey (d ++ "_rush") = false)
    (hks2l : ∀ d ∈ overlapCols (mergeOuter P R "_pass" "_rush") V,
      isKey (d ++ "_x") = false)
    (hks2r : ∀ d ∈ overlapCols (mergeOuter P R "_pass" "_rush") V,
      isKey (d ++ "_y") = false)
    (hdisj1 : ∀ c ∈ R.cols, isKey c = false →
      sufCol (overlapCols P R) "_rush" c ∉ P.cols.map (sufCol (overlapCols P R) "_pass"))
    (hdisj2 : ∀ c ∈ V.cols, isKey c = false →
      sufCol (overlapCols (mergeOuter P R "_pass" "_rush") V) "_y" c
        ∉ (mergeOuter P R "_pass" "_rush").cols.map
            (sufCol (overlapCols (mergeOuter P R "_pass" "_rush") V) "_x"))
    (hpres : present k P ∨ present k R ∨ present k V) :
    ∃ row ∈ (mergedSeason P R V).rows,
      keyOf row = k ∧
      (¬ present k P → ∀ c ∈ P.cols, isKey c = false →
        lookupCell (finalColP P R V c) row = some (Cell.n 0)) ∧
      (¬ present k R → ∀ c ∈ R.cols, isKey c = false →
        lookupCell (finalColR P R V c) row = some (Cell.n 0)) ∧
      (¬ present k V → ∀ c ∈ V.cols, isKey c = false →
        lookupCell (finalColV P R V c) row = some (Cell.n 0)) := by
  obtain ⟨kp, hkp⟩ := hkp
  obtain ⟨kt, hkt⟩ := hkt
  have hmemP : ∀ c ∈ P.cols, sufCol (overlapCols P R) "_pass" c
      ∈ (mergeOuter P R "_pass" "_rush").cols := by
    intro c hc
    rw [mergeOuter_cols]
    exact List.mem_append_left _ (List.mem_map_of_mem _ hc)
  have hmemR : ∀ c ∈ R.cols, isKey c = false → sufCol (overlapCols P R) "_rush" c
      ∈ (mergeOuter P R "_pass" "_rush").cols := by
    intro c hc hck
    rw [mergeOuter_cols]
    refine List.mem_append_right _ (List.mem_filter.mpr ⟨List.mem_map_of_mem _ hc, ?_⟩)
    rw [Bool.not_eq_true']
    exact isKey_sufCol (overlapCols P R) "_rush" c hks1r hck
  have main : ∃ row ∈ (mergeOuter (mergeOuter P R "_pass" "_rush") V "_x" "_y").rows,
      keyOf row = k ∧
      (¬ present k P → ∀ c ∈ P.cols, isKey c = false →
        lookupCell (finalColP P R V c) row = some Cell.na) ∧
      (¬ present k R → ∀ c ∈ R.cols, isKey c = false →
        lookupCell (finalColR P R V c) row = some Cell.na) ∧
      (¬ present k V → ∀ c ∈ V.cols, isKey c = false →
        lookupCell (finalColV P R V c) row = some Cell.na) := by
    by_cases hP : present k P
    · obtain ⟨prow, hpm, hpk⟩ := hP
      obtain ⟨row1, hrow1m, hkey1, hlv1, hnoR, hyesR⟩ :=
        mergeOuter_left_row P R "_pass" "_rush" k prow hpm hpk hPd (hPc prow hpm) hRd
          hinj1l hinj1r hks1l hks1r hdisj1
      obtain ⟨row2, hrow2m, hkey2, hlv2, hnoV, hyesV⟩ :=
        mergeOuter_left_row (mergeOuter P R "_pass" "_rush") V "_x" "_y" k row1 hrow1m
          hkey1 hM1d (hM1c row1 hrow1m) hVd hinj2l hinj2r hks2l hks2r hdisj2
      refine ⟨row2, hrow2m, hkey2, ?_, ?_, ?_⟩
      · intro hnP
        exact absurd ⟨prow, hpm, hpk⟩ hnP
      · intro hnR c hc hck
        rw [show finalColR P R V c
          = sufCol (overlapCols (mergeOuter P R "_pass" "_rush") V) "_x"
              (sufCol (overlapCols P R) "_rush" c) from rfl,
          hlv2 (sufCol (overlapCols P R) "_rush" c) (hmemR c hc hck)]
        exact hnoR hnR c hc hck
      · intro hnV c hc hck
        exact hnoV hnV c hc hck
    · by_cases hR : present k R
      · obtain ⟨rrow, hrm, hrk⟩ := hR
        obtain ⟨row1, hrow1m, hkey1, hPna, hRval⟩ :=
          mergeOuter_right_only_row P R "_pass" "_rush" k rrow hrm hrk hP hRd
            hinj1r hks1l hks1r hdisj1
        obtain ⟨row2, hrow2m, hkey2, hlv2, hnoV, hyesV⟩ :=
          mergeOuter_left_row (mergeOuter P R "_pass" "_rush") V "_x" "_y" k row1 hrow1m
            hkey1 hM1d (hM1c row1 hrow1m) hVd hinj2l hinj2r hks2l hks2r hdisj2
        refine ⟨row2, hrow2m, hkey2, ?_, ?_, ?_⟩
        · intro _ c hc hck
          rw [show finalColP P R V c
            = sufCol (overlapCols (mergeOuter P R "_pass" "_rush") V) "_x"
                (sufCol (overlapCols P R) "_pass" c) from rfl,
            hlv2 (sufCol (overlapCols P R) "_pass" c) (hmemP c hc)]
          exact hPna c hc hck
        · intro hnR
          exact absurd ⟨rrow, hrm, hrk⟩ hnR
        · intro hnV c hc hck
          exact hnoV hnV c hc hck
      · have hV : present k V := by
          rcases hpres with h | h | h
          · exact absurd h hP
          · exact absurd h hR
          · exact h
        obtain ⟨vrow, hvm, hvk⟩ := hV
        have hnM1 : ¬ present k (mergeOuter P R "_pass" "_rush") := by
          intro hpm1
          rcases present_mergeOuter P R "_pass" "_rush" k hks1l hks1r hpm1 with h | h
          · exact hP h
          · exact hR h
        obtain ⟨row2, hm2, hkey2, hM1na, hVval⟩ :=
          mergeOuter_right_only_row (mergeOuter P R "_pass" "_rush") V "_x" "_y" k vrow
            hvm hvk hnM1 hVd hinj2r hks2l hks2r hdisj2
        refine ⟨row2, hm2, hkey2, ?_, ?_, ?_⟩
        · intro _ c hc hck
          exact hM1na (sufCol (overlapCols P R) "_pass" c) (hmemP c hc)
            (isKey_sufCol (overlapCols P R) "_pass" c hks1l hck)
        · intro _ c hc hck
          exact hM1na (sufCol (overlapCols P R) "_rush" c) (hmemR c hc hck)
            (isKey_sufCol (overlapCols P R) "_rush" c hks1r hck)
        · intro hnV
          exact absurd ⟨vrow, hvm, hvk⟩ hnV
  obtain ⟨row2, hm2, hkey2, p1, p2, p3⟩ := main
  have hpl : lookupCell "Player" row2 = some (Cell.s kp) := by
    have := congrArg Prod.fst hkey2
    rw [hkp] at this
    exact this
  have htm : lookupCell "Tm" row2 = some (Cell.s kt) := by
    have := congrArg Prod.snd hkey2
    rw [hkt] at this
    exact this
  refine ⟨fillRow row2, List.mem_map_of_mem _ hm2, ?_, ?_, ?_, ?_⟩
  · rw [keyOf_fillRow row2 kp kt hpl htm]
    exact hkey2
  · intro hnP c hc hck
    rw [lookupCell_fillRow, p1 hnP c hc hck]
    rfl
  · intro hnR c hc hck
    rw [lookupCell_fillRow, p2 hnR c hc hck]
    rfl
  · intro hnV c hc hck
    rw [lookupCell_fillRow, p3 hnV c hc hck]
    rfl

/-- C2 witness: player B/NE appears only in the receiving table; the merged
season record has a row for B/NE in which every passing-derived and
rushing-derived column is 0. -/
theorem c2_outer_join_zero_fill_witness :
    present (some (Cell.s "B"), some (Cell.s "NE")) receivingEx ∧
      ¬ present (some (Cell.s "B"), some (Cell.s "NE")) passingEx ∧
      ¬ present (some (Cell.s "B"), some (Cell.s "NE")) rushingEx ∧
      (∃ row ∈ (mergedSeason passingEx rushingEx receivingEx).rows,
        keyOf row = (some (Cell.s "B"), some (Cell.s "NE")) ∧
        (¬ present (some (Cell.s "B"), some (Cell.s "NE")) passingEx →
          ∀ c ∈ passingEx.cols, isKey c = false →
            lookupCell (finalColP passingEx rushingEx receivingEx c) row = some (Cell.n 0)) ∧
        (¬ present (some (Cell.s "B"), some (Cell.s "NE")) rushingEx →
          ∀ c ∈ rushingEx.cols, isKey c = false →
            lookupCell (finalColR passingEx rushingEx receivingEx c) row = some (Cell.n 0)) ∧
        (¬ present (some (Cell.s "B"), some (Cell.s "NE")) receivingEx →
          ∀ c ∈ receivingEx.cols, isKey c = false →
            lookupCell (finalColV passingEx rushingEx receivingEx c) row = some (Cell.n 0))) :=
  ⟨by decide, by decide, by decide,
    c2_outer_join_zero_fill passingEx rushingEx receivingEx
      (some (Cell.s "B"), some (Cell.s "NE")) ⟨"B", rfl⟩ ⟨"NE", rfl⟩
      (by decide) (by decide) (by decide) (by decide) (by decide) (by decide)
      (by decide) (by decide) (by decide) (by decide)
      (by decide) (by decide) (by decide) (by decide)
      (by decide) (by decide)
      (Or.inr (Or.inr (by decide)))⟩

end NFLFantasy
